import Mathlib

/-!
Verification of the Fretboard-King level-progression and quiz-generation
engine, shallowly embedded from the React application source (the constants
and functions `STRINGS`, `FRETS`, `NOTE_NAMES`, `QUESTIONS_PER_ROUND`,
`MAX_LEVEL`, `isRepetitionLevel`, `getRepetitionLevelRange`,
`getProgressionLevel`, `getLevelConstraints`, `getRequiredScoreForLevel`,
`getNoteName`, `getRandomInt`, `getRandomQuiz`, `getCalculatedTimer`,
`endRound`).

Modelling conventions:
- JS numbers holding integral values are embedded as `Int` (counters that are
  structurally natural numbers as `Nat`); the fractional arithmetic in
  `getRequiredScoreForLevel` and `getCalculatedTimer` is embedded over `ℚ`.
  At every value these theorems touch, the `ℚ` results coincide with the
  IEEE-754 double results of the source.
- `Math.floor(a / b)` on integers with `b > 0` is floor division, embedded as
  `Int.fdiv`.
- JS `%` is embedded as `Int.emod`; the two agree at every call site below
  because the left operand is non-negative whenever the result is consumed.
- `Math.random()`-derived draws are passed in explicitly: a draw
  `Math.floor(Math.random() * max)` (an arbitrary value in `[0, max)`) is
  embedded as `r % max` for an arbitrary seed `r : Nat`, and the
  `options.sort(() => Math.random() - 0.5)` shuffle as an arbitrary
  permutation-producing function supplied as a parameter.
-/

/-- Standard tuning, index 0 = 1st string (high E) … index 5 = 6th string (low E). -/
def STRINGS : List String := ["E", "B", "G", "D", "A", "E"]

def FRETS : Int := 12

def NOTE_NAMES : List String :=
  ["C", "C#", "D", "D#", "E", "F"] ++ ["F#", "G", "G#", "A", "A#", "B"]

def QUESTIONS_PER_ROUND : Nat := 15

/-- Extended to accommodate more repetition levels. -/
def MAX_LEVEL : Int := 26

/-- `isRepetitionLevel(level)`: repetition levels occur every 3rd level
(levels 2, 5, 8, 11, 14, 17, 20, 23, 26, …).  JS `%` agrees with `Int.emod`
here because the guard `level > 0` makes the left operand positive. -/
def isRepetitionLevel (level : Int) : Bool :=
  decide (0 < level) && ((level + 1) % 3 == 0)

/-- Range record returned by `getRepetitionLevelRange`; the source names the
second field `end`, a reserved word in Lean, so it is called `stop` here. -/
structure LevelRange where
  start : Int
  stop : Int
  deriving DecidableEq, Repr

/-- `getRepetitionLevelRange(level)`: the range of levels that a repetition
level covers (level 2 covers levels 0–1, level 5 covers levels 3–4, …). -/
def getRepetitionLevelRange (level : Int) : LevelRange :=
  if !isRepetitionLevel level then ⟨level, level⟩
  else
    let e := level - 1
    ⟨max 0 (e - 1), e⟩

/-- `getProgressionLevel(level)`: maps an effective level to the actual
progression level by subtracting the number of repetition levels before it;
`Math.floor(level / 3)` is floor division `Int.fdiv`. -/
def getProgressionLevel (level : Int) : Int :=
  level - Int.fdiv level 3

/-- The string/fret envelope of a level: `{ minString, maxFret }`. -/
structure Constraints where
  minString : Int
  maxFret : Int
  deriving DecidableEq, Repr

/-- The chain of `if (progLevel === k)` tests in `getLevelConstraints`
(lines 241–258 of the source), applied to an already-computed progression
level.  Any other index falls through to the maximal envelope
`{minString: 0, maxFret: FRETS - 1}`. -/
def progressionEnv (progLevel : Int) : Constraints :=
  if progLevel = 0 then ⟨5, 1⟩
  else if progLevel = 1 then ⟨5, 2⟩
  else if progLevel = 2 then ⟨4, 2⟩
  else if progLevel = 3 then ⟨4, 3⟩
  else if progLevel = 4 then ⟨4, 4⟩
  else if progLevel = 5 then ⟨3, 4⟩
  else if progLevel = 6 then ⟨3, 5⟩
  else if progLevel = 7 then ⟨2, 5⟩
  else if progLevel = 8 then ⟨2, 6⟩
  else if progLevel = 9 then ⟨1, 6⟩
  else if progLevel = 10 then ⟨1, 7⟩
  else if progLevel = 11 then ⟨0, 7⟩
  else if progLevel = 12 then ⟨0, 8⟩
  else if progLevel = 13 then ⟨0, 9⟩
  else if progLevel = 14 then ⟨0, 10⟩
  else if progLevel = 15 then ⟨0, 11⟩
  else ⟨0, FRETS - 1⟩

/-- The regular-level branch of `getLevelConstraints`: compute the
progression level, then run the table of conditionals. -/
def getLevelConstraintsRegular (level : Int) : Constraints :=
  progressionEnv (getProgressionLevel level)

/-- The inclusive integer range `[start, stop]` iterated by the source's
`for (let i = range.start; i <= range.end; i++)` loop. -/
def rangeList (start stop : Int) : List Int :=
  (List.range (stop - start + 1).toNat).map (fun k => start + (k : Int))

/-- `getLevelConstraints(level)`.  For a repetition level the source collects
`getLevelConstraints(i)` over the non-repetition levels `i` of the covered
range and combines them with `Math.min(...)`/`Math.max(...)`; since the loop
body is guarded by `!isRepetitionLevel(i)`, each recursive call resolves to
the regular branch, embedded directly as `getLevelConstraintsRegular` to keep
the definition structurally recursive.  The fold bases `999999`/`-999999`
stand for the `Infinity`/`-Infinity` that `Math.min()`/`Math.max()` of an
empty spread would produce; the list is provably non-empty, so they are never
the result. -/
def getLevelConstraints (level : Int) : Constraints :=
  if isRepetitionLevel level then
    let range := getRepetitionLevelRange level
    let levels := rangeList range.start range.stop
    let constraints := (levels.filter (fun i => !isRepetitionLevel i)).map getLevelConstraintsRegular
    { minString := (constraints.map (fun c => c.minString)).foldr min 999999,
      maxFret := (constraints.map (fun c => c.maxFret)).foldr max (-999999) }
  else getLevelConstraintsRegular level

/-- `getRequiredScoreForLevel()`: `Math.ceil(QUESTIONS_PER_ROUND * 0.8)`,
80% of a round; the double computation `15 * 0.8` is exactly `12`, matching
the rational computation here. -/
def getRequiredScoreForLevel : Int :=
  Int.ceil ((QUESTIONS_PER_ROUND : ℚ) * (0.8 : ℚ))

/-- `NOTE_NAMES.indexOf` with the JS convention of `-1` for a missing
element. -/
def jsIndexOf (l : List String) (s : String) : Int :=
  match l.indexOf? s with
  | some i => (i : Int)
  | none => -1

/-- `getNoteName(openNote, fret)`: the note at cyclic offset `fret` from the
open-string note.  Both operands of `%` are non-negative at every call site,
where JS `%` and `Int.emod` agree. -/
def getNoteName (openNote : String) (fret : Int) : String :=
  let openIdx := jsIndexOf NOTE_NAMES openNote
  NOTE_NAMES.getD ((openIdx + fret) % 12).toNat ""

/-- `getRandomInt(max) = Math.floor(Math.random() * max)`: an arbitrary value
in `[0, max)`, realized from an explicit seed `r` as `r % max`. -/
def getRandomInt (r : Nat) (max : Int) : Int :=
  (r : Int) % max

/-- The note produced by one iteration of the distractor loop:
`NOTE_NAMES[getRandomInt(12)]`. -/
def noteFromDraw (r : Nat) : String :=
  NOTE_NAMES.getD (getRandomInt r 12).toNat ""

/-- The distractor-drawing `while (options.length < 3)` loop of
`getRandomQuiz` (source lines 288–292), consuming one seed per iteration.
The source loop draws fresh randomness forever; a run of it that performs
`draws.length` iterations is the run of this function. -/
def addDistractors (draws : List Nat) (options : List String) : List String :=
  match draws with
  | [] => options
  | r :: rest =>
    if options.length < 3 then
      let n := noteFromDraw r
      if options.contains n then addDistractors rest options
      else addDistractors rest (options ++ [n])
    else options

/-- A generated question: `{ stringIdx, fretIdx, correctNote, options }`. -/
structure Quiz where
  stringIdx : Int
  fretIdx : Int
  correctNote : String
  options : List String
  deriving DecidableEq, Repr

/-- `getRandomQuiz(level)`.  The three uses of randomness are passed
explicitly: `rString`/`rFret` seed the two `getRandomInt` position draws,
`draws` seeds the distractor loop, and `shuffle` stands for the permutation
effected by `options.sort(() => Math.random() - 0.5)`. -/
def getRandomQuiz (level : Int) (rString rFret : Nat) (draws : List Nat)
    (shuffle : List String → List String) : Quiz :=
  let constraints := getLevelConstraints level
  let stringRange := 5 - constraints.minString + 1
  let stringIdx := constraints.minString + getRandomInt rString stringRange
  let fretIdx := getRandomInt rFret (constraints.maxFret + 1)
  let correctNote := getNoteName (STRINGS.getD stringIdx.toNat "") fretIdx
  let options := addDistractors draws [correctNote]
  ⟨stringIdx, fretIdx, correctNote, shuffle options⟩

/-- `Math.round`: round half toward positive infinity. -/
def jsRound (q : ℚ) : Int :=
  Int.floor (q + 1 / 2)

/-- The settings fields consumed by `getCalculatedTimer`. -/
structure Settings where
  adaptiveTiming : Bool
  baseTimer : ℚ

/-- `getCalculatedTimer()`: the per-question countdown, as a function of the
settings and the state it reads (`roundActive`, `roundScore`,
`questionsInRound`, `score`). -/
def getCalculatedTimer (settings : Settings) (roundActive : Bool)
    (roundScore questionsInRound score : Nat) : ℚ :=
  if !settings.adaptiveTiming then settings.baseTimer
  else
    let recentPerformance : ℚ :=
      if roundActive then (roundScore : ℚ) / ((max questionsInRound 1 : Nat) : ℚ)
      else (score : ℚ) / ((max (score + 10) 1 : Nat) : ℚ)
    let multiplier := max (0.7 : ℚ) (min (2.0 : ℚ) (2.0 - recentPerformance * 1.3))
    ((jsRound (settings.baseTimer * multiplier) : Int) : ℚ)

/-- The application state read and written by `endRound`. -/
structure AppState where
  playerLevel : Int
  score : Int
  roundScore : Int
  roundActive : Bool
  deriving DecidableEq, Repr

/-- `endRound()`: deactivate the round, level up when the round score meets
the threshold and the level is below `MAX_LEVEL`, and add the round score to
the total score.  The feedback strings it also sets are presentational and
omitted. -/
def endRound (s : AppState) : AppState :=
  let requiredScore := getRequiredScoreForLevel
  let passed : Bool := decide (requiredScore ≤ s.roundScore)
  { s with
    roundActive := false,
    playerLevel :=
      if passed && decide (s.playerLevel < MAX_LEVEL) then s.playerLevel + 1
      else s.playerLevel,
    score := s.score + s.roundScore }

/-- Modelled from the spec: the "fixed ordered table of 16 entries" of §4.2
that the spec reads off the source's chain of conditionals; used only to
state the refinement claim C4. -/
def specProgressionTable : List Constraints :=
  [⟨5, 1⟩, ⟨5, 2⟩, ⟨4, 2⟩, ⟨4, 3⟩, ⟨4, 4⟩, ⟨3, 4⟩, ⟨3, 5⟩, ⟨2, 5⟩,
   ⟨2, 6⟩, ⟨1, 6⟩, ⟨1, 7⟩, ⟨0, 7⟩, ⟨0, 8⟩, ⟨0, 9⟩, ⟨0, 10⟩, ⟨0, 11⟩]

/-- Modelled from the spec: `AdaptiveTimer.computeSeconds` of §4.4, the
spec's refactored signature for the timer computation; used only to state the
refinement claim C7. -/
def computeSeconds (baseSeconds : ℚ) (adaptiveEnabled : Bool)
    (recentAccuracy : ℚ) : ℚ :=
  if !adaptiveEnabled then baseSeconds
  else
    ((jsRound (baseSeconds *
        (max (0.7 : ℚ) (min (2.0 : ℚ) (2.0 - recentAccuracy * 1.3)))) : Int) : ℚ)

/-! ### Helper lemmas about the difficulty model -/

theorem getProgressionLevel_eq (L : Int) : getProgressionLevel L = L - L / 3 := by
  simp [getProgressionLevel, Int.fdiv_eq_ediv _ (by norm_num : (0:Int) ≤ 3)]

theorem isRepetitionLevel_iff (L : Int) :
    isRepetitionLevel L = true ↔ 0 < L ∧ (L + 1) % 3 = 0 := by
  simp [isRepetitionLevel]

theorem isRepetitionLevel_eq_false (L : Int) (h : ¬(0 < L ∧ (L + 1) % 3 = 0)) :
    isRepetitionLevel L = false := by
  rw [← Bool.not_eq_true, isRepetitionLevel_iff]
  exact h

theorem isRepetitionLevel_exists (L : Int) (h : isRepetitionLevel L = true) :
    ∃ k : Nat, L = 3 * (k : Int) + 2 := by
  rw [isRepetitionLevel_iff] at h
  exact ⟨((L - 2) / 3).toNat, by omega⟩

theorem progressionEnv_out (p : Int) (h : p < 0 ∨ 15 < p) :
    progressionEnv p = ⟨0, 11⟩ := by
  unfold progressionEnv
  rw [if_neg (by omega : ¬(p = 0)), if_neg (by omega : ¬(p = 1)),
    if_neg (by omega : ¬(p = 2)), if_neg (by omega : ¬(p = 3)),
    if_neg (by omega : ¬(p = 4)), if_neg (by omega : ¬(p = 5)),
    if_neg (by omega : ¬(p = 6)), if_neg (by omega : ¬(p = 7)),
    if_neg (by omega : ¬(p = 8)), if_neg (by omega : ¬(p = 9)),
    if_neg (by omega : ¬(p = 10)), if_neg (by omega : ¬(p = 11)),
    if_neg (by omega : ¬(p = 12)), if_neg (by omega : ¬(p = 13)),
    if_neg (by omega : ¬(p = 14)), if_neg (by omega : ¬(p = 15))]
  norm_num [FRETS]

theorem progressionEnv_table_lt16 :
    ∀ m : Nat, m < 16 →
      progressionEnv (m : Int) = (specProgressionTable.get? m).getD ⟨0, 11⟩ := by
  decide

theorem progressionEnv_table (n : Nat) :
    progressionEnv (n : Int) = (specProgressionTable.get? n).getD ⟨0, 11⟩ := by
  by_cases h : n < 16
  · exact progressionEnv_table_lt16 n h
  · rw [progressionEnv_out _ (by omega),
      List.get?_eq_none.mpr (by simp [specProgressionTable]; omega)]
    rfl

theorem progressionEnv_bounds (p : Int) :
    0 ≤ (progressionEnv p).minString ∧ (progressionEnv p).minString ≤ 5 ∧
    1 ≤ (progressionEnv p).maxFret ∧ (progressionEnv p).maxFret ≤ 11 := by
  by_cases h : 0 ≤ p ∧ p ≤ 15
  · have H : ∀ m : Nat, m < 16 →
        0 ≤ (progressionEnv (m : Int)).minString ∧ (progressionEnv (m : Int)).minString ≤ 5 ∧
        1 ≤ (progressionEnv (m : Int)).maxFret ∧ (progressionEnv (m : Int)).maxFret ≤ 11 := by
      decide
    have := H p.toNat (by omega)
    rwa [Int.toNat_of_nonneg h.1] at this
  · rw [progressionEnv_out p (by omega)]
    norm_num

theorem progressionEnv_mono (p : Int) (hp : 0 ≤ p) :
    (progressionEnv (p + 1)).minString ≤ (progressionEnv p).minString ∧
    (progressionEnv p).maxFret ≤ (progressionEnv (p + 1)).maxFret := by
  by_cases h : p ≤ 15
  · have H : ∀ m : Nat, m < 16 →
        (progressionEnv ((m : Int) + 1)).minString ≤ (progressionEnv (m : Int)).minString ∧
        (progressionEnv (m : Int)).maxFret ≤ (progressionEnv ((m : Int) + 1)).maxFret := by
      decide
    have := H p.toNat (by omega)
    rwa [Int.toNat_of_nonneg hp] at this
  · rw [progressionEnv_out p (by omega), progressionEnv_out (p + 1) (by omega)]
    norm_num

theorem getLevelConstraints_of_regular (L : Int) (h : isRepetitionLevel L = false) :
    getLevelConstraints L = progressionEnv (getProgressionLevel L) := by
  simp [getLevelConstraints, h, getLevelConstraintsRegular]

theorem getProgressionLevel_3k (k : Nat) :
    getProgressionLevel (3 * (k : Int)) = 2 * k := by
  rw [getProgressionLevel_eq]; omega

theorem getProgressionLevel_3k1 (k : Nat) :
    getProgressionLevel (3 * (k : Int) + 1) = 2 * k + 1 := by
  rw [getProgressionLevel_eq]; omega

theorem rangeList_pair (a : Int) : rangeList a (a + 1) = [a, a + 1] := by
  have h2 : (a + 1 - a + 1).toNat = 2 := by omega
  rw [rangeList, h2, show List.range 2 = [0, 1] from rfl]
  simp

theorem getLevelConstraints_repetition (k : Nat) :
    getLevelConstraints (3 * (k : Int) + 2) =
      ⟨min (progressionEnv (2 * (k : Int))).minString
         (progressionEnv (2 * (k : Int) + 1)).minString,
       max (progressionEnv (2 * (k : Int))).maxFret
         (progressionEnv (2 * (k : Int) + 1)).maxFret⟩ := by
  have hrep : isRepetitionLevel (3 * (k : Int) + 2) = true := by
    rw [isRepetitionLevel_iff]; omega
  have h0 : isRepetitionLevel (3 * (k : Int)) = false :=
    isRepetitionLevel_eq_false _ (by omega)
  have h1 : isRepetitionLevel (3 * (k : Int) + 1) = false :=
    isRepetitionLevel_eq_false _ (by omega)
  have hrange : getRepetitionLevelRange (3 * (k : Int) + 2) = ⟨3 * k, 3 * k + 1⟩ := by
    simp only [getRepetitionLevelRange, hrep, Bool.not_true, Bool.false_eq_true,
      if_false]
    have e2 : (3 * (k : Int) + 2 - 1) = 3 * (k : Int) + 1 := by ring
    have e1 : (3 * (k : Int) + 1) - 1 = 3 * k := by ring
    simp only [e2, e1, LevelRange.mk.injEq]
    exact ⟨max_eq_right (by positivity), trivial⟩
  have hb0 := progressionEnv_bounds (2 * (k : Int))
  have hb1 := progressionEnv_bounds (2 * (k : Int) + 1)
  simp only [getLevelConstraints, hrep, if_true, hrange]
  rw [show (3 * (k : Int) + 1) = (3 * (k : Int)) + 1 by ring, rangeList_pair]
  simp only [List.filter, h0, h1, Bool.not_false, List.map, getLevelConstraintsRegular,
    getProgressionLevel_3k, getProgressionLevel_3k1, List.foldr, Constraints.mk.injEq]
  omega

theorem getLevelConstraints_bounds (L : Int) :
    0 ≤ (getLevelConstraints L).minString ∧ (getLevelConstraints L).minString ≤ 5 ∧
    1 ≤ (getLevelConstraints L).maxFret ∧ (getLevelConstraints L).maxFret ≤ 11 := by
  cases hrep : isRepetitionLevel L with
  | false =>
    rw [getLevelConstraints_of_regular L hrep]
    exact progressionEnv_bounds _
  | true =>
    obtain ⟨k, rfl⟩ := isRepetitionLevel_exists L hrep
    rw [getLevelConstraints_repetition k]
    have hb0 := progressionEnv_bounds (2 * (k : Int))
    have hb1 := progressionEnv_bounds (2 * (k : Int) + 1)
    simp only [le_min_iff, min_le_iff, le_max_iff, max_le_iff]
    omega

example : getLevelConstraints 0 = ⟨5, 1⟩ := by decide
example : getLevelConstraints 2 = ⟨5, 2⟩ := by decide
example : getLevelConstraints 5 = ⟨4, 3⟩ := by decide
example : getLevelConstraints 26 = ⟨0, 11⟩ := by decide
example : getLevelConstraints (-1) = ⟨5, 1⟩ := by decide
example : getLevelConstraints (-2) = ⟨0, 11⟩ := by decide
example : getRequiredScoreForLevel = 12 := by
  norm_num [getRequiredScoreForLevel, QUESTIONS_PER_ROUND]
example : getNoteName "E" 1 = "F" := by decide
example : getNoteName "A" 3 = "C" := by decide
example : getNoteName "B" 1 = "C" := by decide
example : jsRound (35 / 10) = 4 := by norm_num [jsRound]
example : computeSeconds 5 true 1 = 4 := by
  simp only [computeSeconds, jsRound]
  norm_num [min_def, max_def]
example : computeSeconds 5 true 0 = 10 := by
  simp only [computeSeconds, jsRound]
  norm_num [min_def, max_def]

/-! ### Claim theorems -/

/-- C1: at round completion the round passes iff `roundScore` reaches the
threshold `getRequiredScoreForLevel = ceil(0.8 * 15) = 12`; a passing round
below `MAX_LEVEL` increments the level by exactly 1, a passing round at
`MAX_LEVEL` leaves it unchanged, and in all cases the round score is added to
the total score. -/
theorem endRound_spec (s : AppState) :
    getRequiredScoreForLevel = 12 ∧
    (endRound s).score = s.score + s.roundScore ∧
    (endRound s).playerLevel =
      (if 12 ≤ s.roundScore ∧ s.playerLevel < MAX_LEVEL then s.playerLevel + 1
       else s.playerLevel) ∧
    (endRound s).roundActive = false := by
  have hreq : getRequiredScoreForLevel = 12 := by
    norm_num [getRequiredScoreForLevel, QUESTIONS_PER_ROUND]
  refine ⟨hreq, rfl, ?_, rfl⟩
  simp only [endRound, hreq]
  by_cases h1 : (12 : Int) ≤ s.roundScore <;> by_cases h2 : s.playerLevel < MAX_LEVEL <;>
    simp [h1, h2]

/-- C3: `isRepetitionLevel L` is true iff `L > 0` and `(L + 1) % 3 = 0`,
equivalently iff `L ∈ {2, 5, 8, 11, …} = {3k + 2 | k ∈ ℕ}`. -/
theorem isRepetitionLevel_characterization (L : Int) :
    (isRepetitionLevel L = true ↔ (0 < L ∧ (L + 1) % 3 = 0)) ∧
    (isRepetitionLevel L = true ↔ ∃ k : Nat, L = 3 * (k : Int) + 2) := by
  refine ⟨isRepetitionLevel_iff L, ⟨fun h => isRepetitionLevel_exists L h, ?_⟩⟩
  rintro ⟨k, rfl⟩
  rw [isRepetitionLevel_iff]
  omega

/-- C7: `getCalculatedTimer` returns the base timer unchanged when adaptive
timing is disabled, and otherwise refines the spec's
`computeSeconds(base, true, accuracy)` with `accuracy = roundScore /
max(questionsInRound, 1)` during an active round; in particular
`computeSeconds 5 true 1 = 4` and `computeSeconds 5 true 0 = 10`. -/
theorem adaptiveTimer_spec :
    (∀ (base : ℚ) (ra : Bool) (rs q sc : Nat),
        getCalculatedTimer ⟨false, base⟩ ra rs q sc = base) ∧
    (∀ (base : ℚ) (rs q sc : Nat),
        getCalculatedTimer ⟨true, base⟩ true rs q sc =
          computeSeconds base true ((rs : ℚ) / ((max q 1 : Nat) : ℚ))) ∧
    (∀ (base a : ℚ), computeSeconds base false a = base) ∧
    computeSeconds 5 true 1 = 4 ∧
    computeSeconds 5 true 0 = 10 := by
  refine ⟨fun base ra rs q sc => rfl, fun base rs q sc => rfl, fun base a => rfl, ?_, ?_⟩
  · simp only [computeSeconds, jsRound]
    norm_num [min_def, max_def]
  · simp only [computeSeconds, jsRound]
    norm_num [min_def, max_def]

/-- C2: for every repetition level `L`, the covered range is `{L-2, L-1}`,
both covered levels are regular, and the envelope of `L` is the union
(min of `minString`, max of `maxFret`) of their envelopes. -/
theorem repetitionEnvelope_union (L : Int) (h : isRepetitionLevel L = true) :
    getRepetitionLevelRange L = ⟨L - 2, L - 1⟩ ∧
    isRepetitionLevel (L - 2) = false ∧
    isRepetitionLevel (L - 1) = false ∧
    getLevelConstraints L =
      ⟨min (getLevelConstraints (L - 2)).minString (getLevelConstraints (L - 1)).minString,
       max (getLevelConstraints (L - 2)).maxFret (getLevelConstraints (L - 1)).maxFret⟩ := by
  obtain ⟨k, rfl⟩ := isRepetitionLevel_exists L h
  have e0 : (3 * (k : Int) + 2) - 2 = 3 * k := by ring
  have e1 : (3 * (k : Int) + 2) - 1 = 3 * (k : Int) + 1 := by ring
  have h0 : isRepetitionLevel (3 * (k : Int)) = false :=
    isRepetitionLevel_eq_false _ (by omega)
  have h1 : isRepetitionLevel (3 * (k : Int) + 1) = false :=
    isRepetitionLevel_eq_false _ (by omega)
  refine ⟨?_, by rw [e0]; exact h0, by rw [e1]; exact h1, ?_⟩
  · simp only [getRepetitionLevelRange, h, Bool.not_true, Bool.false_eq_true, if_false,
      LevelRange.mk.injEq, e1]
    constructor
    · rw [show (3 * (k : Int) + 1) - 1 = 3 * k by ring, max_eq_right (by positivity)]
      omega
    · trivial
  · rw [e0, e1, getLevelConstraints_repetition k, getLevelConstraints_of_regular _ h0,
      getLevelConstraints_of_regular _ h1, getProgressionLevel_3k, getProgressionLevel_3k1]

/-- Witness for C2 at the first repetition level, `L = 2`. -/
theorem repetitionEnvelope_union_witness :
    getRepetitionLevelRange 2 = ⟨0, 1⟩ ∧
    isRepetitionLevel 0 = false ∧
    isRepetitionLevel 1 = false ∧
    getLevelConstraints 2 =
      ⟨min (getLevelConstraints 0).minString (getLevelConstraints 1).minString,
       max (getLevelConstraints 0).maxFret (getLevelConstraints 1).maxFret⟩ := by
  have h := repetitionEnvelope_union 2 (by decide)
  rw [show (2 : Int) - 2 = 0 by norm_num, show (2 : Int) - 1 = 1 by norm_num] at h
  exact h

/-- C10: every repetition level has exactly the envelope of the regular level
immediately before it, because successive progression-table entries are
weakly wider in both dimensions. -/
theorem repetitionEnvelope_eq_prev (L : Int) (h : isRepetitionLevel L = true) :
    getLevelConstraints L = getLevelConstraints (L - 1) := by
  obtain ⟨k, rfl⟩ := isRepetitionLevel_exists L h
  rw [getLevelConstraints_repetition k,
    show (3 * (k : Int) + 2) - 1 = 3 * (k : Int) + 1 by ring,
    getLevelConstraints_of_regular _ (isRepetitionLevel_eq_false _ (by omega)),
    getProgressionLevel_3k1]
  have hm := progressionEnv_mono (2 * (k : Int)) (by positivity)
  rw [min_eq_right hm.1, max_eq_right hm.2]

/-- Witness for C10 at the repetition level `L = 5`. -/
theorem repetitionEnvelope_eq_prev_witness :
    getLevelConstraints 5 = getLevelConstraints 4 := by
  have h := repetitionEnvelope_eq_prev 5 (by decide)
  rwa [show (5 : Int) - 1 = 4 by norm_num] at h

/-- C4: every regular level `L ≥ 0` resolves its envelope by looking up the
progression index `L - ⌊L/3⌋` in the 16-entry progression table, with any
index beyond the table yielding the maximal envelope `⟨0, FRETS - 1⟩`. -/
theorem regularEnvelope_table_lookup (L : Int) (hL : 0 ≤ L)
    (h : isRepetitionLevel L = false) :
    getProgressionLevel L = L - Int.fdiv L 3 ∧
    getLevelConstraints L =
      (specProgressionTable.get? (getProgressionLevel L).toNat).getD ⟨0, FRETS - 1⟩ := by
  refine ⟨rfl, ?_⟩
  rw [getLevelConstraints_of_regular L h]
  have hp : 0 ≤ getProgressionLevel L := by
    rw [getProgressionLevel_eq]; omega
  have ht := progressionEnv_table (getProgressionLevel L).toNat
  rw [Int.toNat_of_nonneg hp] at ht
  rw [ht, show (⟨0, 11⟩ : Constraints) = ⟨0, FRETS - 1⟩ by norm_num [FRETS]]

/-- Witness for C4 at the regular level `L = 4`. -/
theorem regularEnvelope_table_lookup_witness :
    getProgressionLevel 4 = 4 - Int.fdiv 4 3 ∧
    getLevelConstraints 4 =
      (specProgressionTable.get? (getProgressionLevel 4).toNat).getD ⟨0, FRETS - 1⟩ :=
  regularEnvelope_table_lookup 4 (by norm_num) (by decide)

/-- C6: across regular levels below `MAX_LEVEL` the difficulty envelope
widens weakly monotonically: `maxFret` never decreases and the breadth of
playable strings `5 - minString + 1` never decreases. -/
theorem envelope_monotone_regular :
    ∀ lp : Nat, lp < 26 → ∀ l : Nat, l ≤ lp →
      isRepetitionLevel (l : Int) = false → isRepetitionLevel (lp : Int) = false →
      (getLevelConstraints (l : Int)).maxFret ≤ (getLevelConstraints (lp : Int)).maxFret ∧
      5 - (getLevelConstraints (l : Int)).minString + 1 ≤
        5 - (getLevelConstraints (lp : Int)).minString + 1 := by
  decide

/-- Witness for C6 with the consecutive regular levels 0 and 1. -/
theorem envelope_monotone_regular_witness :
    (getLevelConstraints 0).maxFret ≤ (getLevelConstraints 1).maxFret ∧
    5 - (getLevelConstraints 0).minString + 1 ≤
      5 - (getLevelConstraints 1).minString + 1 :=
  envelope_monotone_regular 1 (by decide) 0 (by decide) (by decide) (by decide)

/-- C8 counterexample: a negative level passed to `getLevelConstraints` is
not rejected — there is no error path at all — but silently mapped to an
envelope: level `-1` yields the level-0 envelope. -/
theorem negativeLevel_not_rejected :
    getLevelConstraints (-1) = ⟨5, 1⟩ ∧
    getLevelConstraints (-1) = getLevelConstraints 0 := by
  decide

/-- C8 amended: the code performs no validation and defines no error: a
negative level is silently mapped through the progression computation
(level `-1` lands on the level-0 envelope, levels `≤ -2` fall through to the
maximal envelope), and levels `≥ MAX_LEVEL` are clamped to the maximal
envelope. -/
theorem levelConstraints_out_of_range (L : Int) (h : L < 0 ∨ MAX_LEVEL ≤ L) :
    getLevelConstraints L = (if L = -1 then ⟨5, 1⟩ else ⟨0, 11⟩) := by
  have hM : MAX_LEVEL = 26 := rfl
  rcases h with h | h
  · by_cases h1 : L = -1
    · subst h1
      rw [if_pos rfl]
      decide
    · rw [if_neg h1]
      have hrep : isRepetitionLevel L = false :=
        isRepetitionLevel_eq_false _ (by omega)
      rw [getLevelConstraints_of_regular L hrep]
      apply progressionEnv_out
      rw [getProgressionLevel_eq]
      omega
  · rw [hM] at h
    rw [if_neg (by omega)]
    cases hrep : isRepetitionLevel L with
    | false =>
      rw [getLevelConstraints_of_regular L hrep]
      apply progressionEnv_out
      rw [getProgressionLevel_eq]
      omega
    | true =>
      obtain ⟨k, rfl⟩ := isRepetitionLevel_exists _ hrep
      have hk : (8 : Nat) ≤ k := by omega
      rw [getLevelConstraints_repetition k,
        progressionEnv_out (2 * (k : Int)) (by omega),
        progressionEnv_out (2 * (k : Int) + 1) (by omega)]
      simp

/-- Witness for the amended C8 at the negative level `-2`. -/
theorem levelConstraints_out_of_range_witness :
    getLevelConstraints (-2) = ⟨0, 11⟩ := by
  have h := levelConstraints_out_of_range (-2) (Or.inl (by norm_num))
  rwa [if_neg (by norm_num)] at h

/-! ### Lemmas about the distractor loop -/

theorem addDistractors_of_length_ge (draws : List Nat) (options : List String)
    (h : 3 ≤ options.length) : addDistractors draws options = options := by
  cases draws with
  | nil => rfl
  | cons r rest => simp [addDistractors, Nat.not_lt.mpr h]

theorem addDistractors_append_extra (draws : List Nat) (options : List String) :
    ∃ extra, addDistractors draws options = options ++ extra := by
  induction draws generalizing options with
  | nil => exact ⟨[], by simp [addDistractors]⟩
  | cons r rest ih =>
    by_cases h3 : options.length < 3
    · by_cases hm : noteFromDraw r ∈ options
      · obtain ⟨ex, hex⟩ := ih options
        exact ⟨ex, by simp [addDistractors, h3, hm, hex]⟩
      · obtain ⟨ex, hex⟩ := ih (options ++ [noteFromDraw r])
        refine ⟨[noteFromDraw r] ++ ex, ?_⟩
        simp [addDistractors, h3, hm, hex]
    · exact ⟨[], by simp [addDistractors, h3]⟩

theorem addDistractors_length_le (draws : List Nat) (options : List String)
    (h : options.length ≤ 3) : (addDistractors draws options).length ≤ 3 := by
  induction draws generalizing options with
  | nil => simpa [addDistractors]
  | cons r rest ih =>
    by_cases h3 : options.length < 3
    · by_cases hm : noteFromDraw r ∈ options
      · simpa [addDistractors, h3, hm] using ih options h
      · have h' : (options ++ [noteFromDraw r]).length ≤ 3 := by
          simp only [List.length_append, List.length_singleton]
          omega
        simpa [addDistractors, h3, hm] using ih _ h'
    · simpa [addDistractors, h3]

theorem addDistractors_nodup (draws : List Nat) (options : List String)
    (h : options.Nodup) : (addDistractors draws options).Nodup := by
  induction draws generalizing options with
  | nil => simpa [addDistractors]
  | cons r rest ih =>
    by_cases h3 : options.length < 3
    · by_cases hm : noteFromDraw r ∈ options
      · simpa [addDistractors, h3, hm] using ih options h
      · have h' : (options ++ [noteFromDraw r]).Nodup := by
          simp [List.nodup_append, h, hm]
        simpa [addDistractors, h3, hm] using ih _ h'
    · simpa [addDistractors, h3]

theorem addDistractors_complete_of_two (draws : List Nat) (options : List String)
    (h2 : options.length = 2) (hex : ∃ a ∈ draws, noteFromDraw a ∉ options) :
    (addDistractors draws options).length = 3 := by
  induction draws generalizing options with
  | nil =>
    obtain ⟨a, ha, _⟩ := hex
    simp at ha
  | cons r rest ih =>
    obtain ⟨a, ha, hna⟩ := hex
    have h3 : options.length < 3 := by omega
    by_cases hm : noteFromDraw r ∈ options
    · have har : a ∈ rest := by
        rcases List.mem_cons.mp ha with rfl | hmem
        · exact absurd hm hna
        · exact hmem
      simpa [addDistractors, h3, hm] using ih options h2 ⟨a, har, hna⟩
    · have hlen : (options ++ [noteFromDraw r]).length = 3 := by
        simp only [List.length_append, List.length_singleton]
        omega
      have hstop := addDistractors_of_length_ge rest (options ++ [noteFromDraw r])
        (le_of_eq hlen.symm)
      simpa [addDistractors, h3, hm, hstop] using hlen

theorem addDistractors_complete_of_start (draws : List Nat) (c : String)
    (hex : ∃ a ∈ draws, ∃ b ∈ draws, noteFromDraw a ≠ c ∧ noteFromDraw b ≠ c ∧
      noteFromDraw a ≠ noteFromDraw b) :
    (addDistractors draws [c]).length = 3 := by
  induction draws with
  | nil =>
    obtain ⟨a, ha, _⟩ := hex
    simp at ha
  | cons r rest ih =>
    obtain ⟨a, ha, b, hb, hac, hbc, hab⟩ := hex
    have h3 : ([c] : List String).length < 3 := by simp
    by_cases hm : noteFromDraw r ∈ ([c] : List String)
    · have hrc : noteFromDraw r = c := by simpa using hm
      have har : a ∈ rest := by
        rcases List.mem_cons.mp ha with rfl | hmem
        · exact absurd hrc hac
        · exact hmem
      have hbr : b ∈ rest := by
        rcases List.mem_cons.mp hb with rfl | hmem
        · exact absurd hrc hbc
        · exact hmem
      simpa [addDistractors, h3, hrc] using ih ⟨a, har, b, hbr, hac, hbc, hab⟩
    · have hrc : noteFromDraw r ≠ c := by simpa using hm
      have hmain : (addDistractors rest ([c] ++ [noteFromDraw r])).length = 3 := by
        apply addDistractors_complete_of_two rest _ (by simp)
        by_cases hd : noteFromDraw a = noteFromDraw r
        · have hbr' : b ∈ rest := by
            rcases List.mem_cons.mp hb with rfl | hmem
            · exact absurd hd hab
            · exact hmem
          refine ⟨b, hbr', ?_⟩
          have hbn : noteFromDraw b ≠ noteFromDraw r := fun he => hab (hd.trans he.symm)
          simp [hbc, hbn]
        · have har' : a ∈ rest := by
            rcases List.mem_cons.mp ha with rfl | hmem
            · exact absurd rfl hd
            · exact hmem
          exact ⟨a, har', by simp [hac, hd]⟩
      simpa [addDistractors, h3, hrc] using hmain

/-- C9 counterexample: at the claimed cap of 100 draws the distractor loop
has neither assembled 3 options nor produced any error — after 100 duplicate
draws of the correct note the options are still just the correct answer, and
the loop keeps consuming further draws past the claimed bound instead of
aborting. -/
theorem distractorLoop_no_cap_counterexample :
    addDistractors (List.replicate 100 4) ["E"] = ["E"] ∧
    addDistractors (List.replicate 100 4 ++ [0, 1]) ["E"] = ["E", "C", "C#"] := by
  decide

/-- C9 amended: the distractor loop has no retry cap and no error path: for
every number `n` of consecutive duplicate draws the loop is still incomplete
(options unchanged) and continues, and it assembles exactly 3 distinct
options once the draws provide two distinct non-correct notes. -/
theorem distractorLoop_unbounded :
    ∀ n : Nat,
      addDistractors (List.replicate n 4) ["E"] = ["E"] ∧
      addDistractors (List.replicate n 4 ++ [0, 1]) ["E"] = ["E", "C", "C#"] := by
  intro n
  have hnote : noteFromDraw 4 = "E" := by decide
  induction n with
  | zero => exact ⟨rfl, by decide⟩
  | succ m ih =>
    constructor
    · rw [List.replicate_succ]
      simpa [addDistractors, hnote] using ih.1
    · rw [List.replicate_succ, List.cons_append]
      simpa [addDistractors, hnote] using ih.2

/-- C5: every question `getRandomQuiz` produces (for any draws that let the
option loop finish) has exactly 3 pairwise-distinct options containing the
correct answer, its string index lies in `[minString, 5]`, its fret index in
`[0, maxFret]` of the level envelope, and the correct answer is the note at
cyclic offset `fretIdx` from the open-string note. -/
theorem getRandomQuiz_wellFormed (L : Int) (hL : 0 ≤ L) (rString rFret : Nat)
    (draws : List Nat) (shuffle : List String → List String)
    (hshuffle : ∀ l : List String, List.Perm (shuffle l) l)
    (q : Quiz) (hq : q = getRandomQuiz L rString rFret draws shuffle)
    (hdraws : ∃ a ∈ draws, ∃ b ∈ draws,
      noteFromDraw a ≠ q.correctNote ∧ noteFromDraw b ≠ q.correctNote ∧
      noteFromDraw a ≠ noteFromDraw b) :
    q.options.length = 3 ∧ q.options.Nodup ∧ q.correctNote ∈ q.options ∧
    (getLevelConstraints L).minString ≤ q.stringIdx ∧ q.stringIdx ≤ 5 ∧
    0 ≤ q.fretIdx ∧ q.fretIdx ≤ (getLevelConstraints L).maxFret ∧
    q.correctNote = getNoteName (STRINGS.getD q.stringIdx.toNat "") q.fretIdx := by
  subst hq
  obtain ⟨hm0, hm5, hf1, hf11⟩ := getLevelConstraints_bounds L
  have hopts : (getRandomQuiz L rString rFret draws shuffle).options =
      shuffle (addDistractors draws
        [(getRandomQuiz L rString rFret draws shuffle).correctNote]) := rfl
  have hperm := hshuffle (addDistractors draws
    [(getRandomQuiz L rString rFret draws shuffle).correctNote])
  have hraw3 : (addDistractors draws
      [(getRandomQuiz L rString rFret draws shuffle).correctNote]).length = 3 :=
    addDistractors_complete_of_start draws _ hdraws
  have hrawnd : (addDistractors draws
      [(getRandomQuiz L rString rFret draws shuffle).correctNote]).Nodup :=
    addDistractors_nodup draws _ (by simp)
  have hrawmem : (getRandomQuiz L rString rFret draws shuffle).correctNote ∈
      addDistractors draws
        [(getRandomQuiz L rString rFret draws shuffle).correctNote] := by
    obtain ⟨ex, hex⟩ := addDistractors_append_extra draws
      [(getRandomQuiz L rString rFret draws shuffle).correctNote]
    rw [hex]
    exact List.mem_append_left _ (by simp)
  have hstr : (getRandomQuiz L rString rFret draws shuffle).stringIdx =
      (getLevelConstraints L).minString +
        (rString : Int) % (5 - (getLevelConstraints L).minString + 1) := rfl
  have hfret : (getRandomQuiz L rString rFret draws shuffle).fretIdx =
      (rFret : Int) % ((getLevelConstraints L).maxFret + 1) := rfl
  have hsm := Int.emod_nonneg (rString : Int)
    (by omega : (5 - (getLevelConstraints L).minString + 1) ≠ 0)
  have hsl := Int.emod_lt_of_pos (rString : Int)
    (by omega : (0 : Int) < 5 - (getLevelConstraints L).minString + 1)
  have hfm := Int.emod_nonneg (rFret : Int)
    (by omega : ((getLevelConstraints L).maxFret + 1) ≠ 0)
  have hfl := Int.emod_lt_of_pos (rFret : Int)
    (by omega : (0 : Int) < (getLevelConstraints L).maxFret + 1)
  refine ⟨?_, ?_, ?_, ?_, ?_, ?_, ?_, rfl⟩
  · rw [hopts, hperm.length_eq, hraw3]
  · rw [hopts]
    exact (hperm.nodup_iff).mpr hrawnd
  · rw [hopts, hperm.mem_iff]
    exact hrawmem
  · rw [hstr]; omega
  · rw [hstr]; omega
  · rw [hfret]; omega
  · rw [hfret]; omega

/-- Witness for C5: level 0 with seeds 0/0, distractor draws `[0, 1]`
("C", "C#"), and the identity shuffle. -/
theorem getRandomQuiz_wellFormed_witness :
    (getRandomQuiz 0 0 0 [0, 1] id).options.length = 3 ∧
    (getRandomQuiz 0 0 0 [0, 1] id).options.Nodup ∧
    (getRandomQuiz 0 0 0 [0, 1] id).correctNote ∈ (getRandomQuiz 0 0 0 [0, 1] id).options ∧
    (getLevelConstraints 0).minString ≤ (getRandomQuiz 0 0 0 [0, 1] id).stringIdx ∧
    (getRandomQuiz 0 0 0 [0, 1] id).stringIdx ≤ 5 ∧
    0 ≤ (getRandomQuiz 0 0 0 [0, 1] id).fretIdx ∧
    (getRandomQuiz 0 0 0 [0, 1] id).fretIdx ≤ (getLevelConstraints 0).maxFret ∧
    (getRandomQuiz 0 0 0 [0, 1] id).correctNote =
      getNoteName (STRINGS.getD (getRandomQuiz 0 0 0 [0, 1] id).stringIdx.toNat "")
        (getRandomQuiz 0 0 0 [0, 1] id).fretIdx :=
  getRandomQuiz_wellFormed 0 (by norm_num) 0 0 [0, 1] id
    (fun l => List.Perm.refl (id l)) _ rfl (by decide)
